import Mathlib

/-
Verification development for the telminal terminal-UI toolkit.

The definitions below are a shallow embedding of the Rust sources:
  * src/screen.rs : Character, ScreenBuffer and its asserting indexing
  * src/tree.rs   : Bounds, Style, ViewNode, render / render_text /
                    render_column / render_row / render_container
  * src/lib.rs    : the frame diff and the event-dispatch step of
                    Terminal::run, and the per-frame buffer allocation

Machine-integer conventions: the sources compute in u16 (and cast usize
indices and lengths to u16 with the wrapping `as` cast).  Every operation
that can wrap is modelled with an explicit % 65536; +, - and * follow the
release-profile wrapping semantics, while division by zero and the
assert! bounds checks in ScreenBuffer indexing are panics.  A panic and
an early `Err` return both abort the Rust render; both are modelled in
the second component of the returned pair, with distinct constructors so
that a panic (panicOOB, panicDivZero) is distinguishable from the one
value that the Rust code returns as the Result error (unknownNode, the
"Unknown ViewNode" string error of render_container).
-/

namespace Telminal

/-- Terminal colors (the closed crossterm enumeration, abridged to the
constructors the examples use plus the parameterised ones). -/
inductive Color where
  | reset
  | black
  | darkGrey
  | red
  | darkRed
  | green
  | blue
  | white
  | rgb (r g b : Nat)
  | ansiValue (v : Nat)
deriving DecidableEq

/-- One styled screen cell (src/screen.rs, struct Character). -/
structure Character where
  foreground_color : Color
  background_color : Color
  character : String
deriving DecidableEq

/-- The Default instance of Character (src/screen.rs): terminal-default
colors and a single-space glyph. -/
def Character.default : Character :=
  { foreground_color := Color.reset
  , background_color := Color.reset
  , character := (" ") }

/-- Key codes (crossterm KeyCode, abridged). -/
inductive KeyCode where
  | char (c : Char)
  | up
  | down
  | enter
  | esc
  | otherCode
deriving DecidableEq

/-- A key event: code plus a modifier bitset (crossterm KeyEvent). -/
structure KeyEvent where
  code : KeyCode
  modifiers : Nat
deriving DecidableEq

/-- Terminal events (crossterm Event): key events and everything else the
loop ignores. -/
inductive Event where
  | key (e : KeyEvent)
  | otherEvent
deriving DecidableEq

/-- Optional foreground and background overrides (src/tree.rs, Style). -/
structure Style where
  color : Option Color
  background_color : Option Color
deriving DecidableEq

/-- A paint region: origin and size in cells (src/tree.rs, Bounds; both
fields are u16 pairs in the source). -/
structure Bounds where
  origin : Nat × Nat
  size : Nat × Nat
deriving DecidableEq

/-- The screen buffer of src/screen.rs: a width*height row-major flat
vector of cells. -/
structure ScreenBuffer where
  width : Nat
  height : Nat
  data : List Character
deriving DecidableEq

/-- ScreenBuffer::new (src/screen.rs). -/
def ScreenBuffer.new (width height : Nat) (d : Character) : ScreenBuffer :=
  { width := width, height := height, data := List.replicate (width * height) d }

/-- Apply a function to the list element at an index (no-op past the end);
models an in-place update of one Vec slot. -/
def listModify (l : List Character) (n : Nat) (f : Character → Character) : List Character :=
  match l, n with
  | [], _ => []
  | a :: as_, 0 => f a :: as_
  | a :: as_, Nat.succ m => a :: listModify as_ m f

/-- Render-time failures.  panicOOB models the assert! panics of the
ScreenBuffer Index impls, panicDivZero the divide-by-zero panic of
render_row; unknownNode models the one genuine `Err` return, the
"Unknown ViewNode" error of render_container. -/
inductive RErr where
  | panicOOB
  | panicDivZero
  | unknownNode
deriving DecidableEq

/-- Observation helper: the cell at (col, row), when both indices are in
range (mirrors the row * width + col addressing of src/screen.rs). -/
def ScreenBuffer.get? (s : ScreenBuffer) (col row : Nat) : Option Character :=
  if col < s.width ∧ row < s.height then s.data.get? (row * s.width + col) else none

/-- The write through ScreenBuffer::index_mut (src/screen.rs): both
assert! bounds checks, then an update of the row * width + col slot.  On
an assert failure the buffer is returned unchanged together with the
panic. -/
def ScreenBuffer.setCell (s : ScreenBuffer) (col row : Nat) (f : Character → Character) :
    ScreenBuffer × Option RErr :=
  if col < s.width ∧ row < s.height then
    ({ s with data := listModify s.data (row * s.width + col) f }, none)
  else
    (s, some RErr.panicOOB)

/-- Sequencing of render steps: a panic or error aborts the rest of the
computation, keeping the buffer state reached so far (in-place mutation
semantics). -/
def rbind (r : ScreenBuffer × Option RErr) (k : ScreenBuffer → ScreenBuffer × Option RErr) :
    ScreenBuffer × Option RErr :=
  match r with
  | (s, none) => k s
  | (s, some e) => (s, some e)

/-- Wrapping u16 subtraction (release-profile semantics of the - used in
render_row). -/
def wsub (a b : Nat) : Nat :=
  (a % 65536 + (65536 - b % 65536)) % 65536

/-- Combining diacritical marks (U+0300 to U+036F), the fragment of
grapheme segmentation the development needs. -/
def isCombining (c : Char) : Bool :=
  decide (0x300 ≤ c.toNat ∧ c.toNat ≤ 0x36F)

/-- Modelled from the spec: grapheme-cluster decomposition of a string is
delegated by the source to the external unicode-segmentation collaborator
("user-perceived characters, not raw code points"); it is modelled here
for the fragment the claims exercise: a combining diacritical mark
extends the cluster of the character before it, every other character
starts a new cluster. -/
def clusters : List Char → List (List Char)
  | [] => []
  | c :: cs =>
    match clusters cs with
    | [] => [[c]]
    | [] :: gs => [c] :: [] :: gs
    | (d :: g) :: gs =>
      if isCombining d then (c :: d :: g) :: gs else [c] :: (d :: g) :: gs

/-- Modelled from the spec: the graphemes(true) iterator of the source,
as a list of cluster strings. -/
def graphemes (s : String) : List String :=
  (clusters s.data).map (fun l => String.mk l)

/-- The closed view-tree enumeration of src/tree.rs, parameterized by the
application message type. -/
inductive ViewNode (Msg : Type) where
  | Column (children : List (ViewNode Msg))
  | Container (child : ViewNode Msg) (style : Style) (on_key_press : Option (KeyEvent → Msg))
  | Row (children : List (ViewNode Msg))
  | Text (text : String)
  | None

/-- The loop body of render_text (src/tree.rs): write cluster number i
into the cell at (origin.x + i, origin.y), leaving the colors of the
cell alone. -/
def renderTextAux (x y : Nat) (i : Nat) (gs : List String) (s : ScreenBuffer) :
    ScreenBuffer × Option RErr :=
  match gs with
  | [] => (s, none)
  | g :: rest =>
    rbind (s.setCell (x + i) y (fun c => { c with character := g }))
      (fun s1 => renderTextAux x y (i + 1) rest s1)

/-- render_text (src/tree.rs): enumerate the grapheme clusters of the
text and write each one at the next column of the origin row. -/
def renderText (text : String) (screen : ScreenBuffer) (bounds : Bounds) :
    ScreenBuffer × Option RErr :=
  renderTextAux bounds.origin.fst bounds.origin.snd 0 (graphemes text) screen

/-- render_column (src/tree.rs): a documented no-op. -/
def renderColumn {Msg : Type} (_column : List (ViewNode Msg)) (screen : ScreenBuffer)
    (_bounds : Bounds) : ScreenBuffer × Option RErr :=
  (screen, none)

/-- The per-cell overwrite of render_container (src/tree.rs): a present
style field replaces the corresponding color, an absent one leaves it
untouched, and the glyph becomes a single space. -/
def fillCharacter (st : Style) (c : Character) : Character :=
  { foreground_color := st.color.getD c.foreground_color
  , background_color := st.background_color.getD c.background_color
  , character := (" ") }

/-- The inner x loop of render_container over n consecutive columns
starting at x, all in row y. -/
def fillRowAux (st : Style) (y : Nat) : Nat → Nat → ScreenBuffer → ScreenBuffer × Option RErr
  | _, 0, s => (s, none)
  | x, Nat.succ n, s =>
    rbind (s.setCell x y (fillCharacter st)) (fun s1 => fillRowAux st y (x + 1) n s1)

/-- The outer y loop of render_container over n consecutive rows starting
at y, columns ox up to ox + nx. -/
def fillRectAux (st : Style) (ox nx : Nat) : Nat → Nat → ScreenBuffer → ScreenBuffer × Option RErr
  | _, 0, s => (s, none)
  | y, Nat.succ n, s =>
    rbind (fillRowAux st y ox nx s) (fun s1 => fillRectAux st ox nx (y + 1) n s1)

/-- The background fill of render_container (src/tree.rs): every cell of
the u16 ranges origin_y..origin_y + size_y, origin_x..origin_x + size_x
gets fillCharacter applied (range ends computed with wrapping u16
addition, release semantics). -/
def fillRect (st : Style) (b : Bounds) (s : ScreenBuffer) : ScreenBuffer × Option RErr :=
  let ox := b.origin.fst
  let oy := b.origin.snd
  let ex := (ox + b.size.fst) % 65536
  let ey := (oy + b.size.snd) % 65536
  fillRectAux st ox (ex - ox) oy (ey - oy) s

/-- The bounds handed to child number i by the loop of render_row
(src/tree.rs): the x origin is the u16 product offset * i (the index is
cast usize → u16 first), in absolute buffer coordinates, and the width
is the parent width minus that same product (wrapping u16 subtraction);
the y origin and the height pass through unchanged. -/
def rowChildBounds (offset : Nat) (bounds : Bounds) (i : Nat) : Bounds :=
  { origin := ((offset * (i % 65536)) % 65536, bounds.origin.snd)
  , size := (wsub bounds.size.fst ((offset * (i % 65536)) % 65536), bounds.size.snd) }

mutual

/-- The render dispatch of src/tree.rs: None, Text, Column and Row are
matched first; everything else falls through to render_container (the
catch-all arm of the source match). -/
def render {Msg : Type} (view : ViewNode Msg) (screen : ScreenBuffer) (bounds : Bounds) :
    ScreenBuffer × Option RErr :=
  match view with
  | ViewNode.None => (screen, none)
  | ViewNode.Text t => renderText t screen bounds
  | ViewNode.Column c => renderColumn c screen bounds
  | ViewNode.Row r => renderRow r screen bounds
  | container => renderContainer container screen bounds
termination_by (sizeOf view, 2)

/-- render_row (src/tree.rs): the child count is cast usize → u16 (a
wrapping cast, hence the % 65536); dividing the bounds width by it
panics when the cast result is zero, which happens both for an empty
child list and for exactly 65536 children. -/
def renderRow {Msg : Type} (rows : List (ViewNode Msg)) (screen : ScreenBuffer)
    (bounds : Bounds) : ScreenBuffer × Option RErr :=
  let len := rows.length % 65536
  if len = 0 then (screen, some RErr.panicDivZero)
  else renderRowAux (bounds.size.fst / len) bounds 0 rows screen
termination_by (sizeOf rows, 1)

/-- The child loop of render_row: child number i is rendered at absolute
x origin offset * i (u16 product, wrapping) with the width shrunk by the
same amount (wrapping u16 subtraction); y origin and height pass through
unchanged. -/
def renderRowAux {Msg : Type} (offset : Nat) (bounds : Bounds) (i : Nat)
    (rows : List (ViewNode Msg)) (screen : ScreenBuffer) : ScreenBuffer × Option RErr :=
  match rows with
  | [] => (screen, none)
  | c :: rest =>
    rbind (render c screen (rowChildBounds offset bounds i))
      (fun s1 => renderRowAux offset bounds (i + 1) rest s1)
termination_by (sizeOf rows, 0)

/-- render_container (src/tree.rs): re-match the node; a Container fills
its bounds with the style and then renders the child into the same
bounds, anything else is the "Unknown ViewNode" Err return. -/
def renderContainer {Msg : Type} (container : ViewNode Msg) (screen : ScreenBuffer)
    (bounds : Bounds) : ScreenBuffer × Option RErr :=
  match container with
  | ViewNode.Container child style _ =>
    rbind (fillRect style bounds screen) (fun s1 => render child s1 bounds)
  | _ => (screen, some RErr.unknownNode)
termination_by (sizeOf container, 1)

end

/-- The emission test of the frame diff loop in Terminal::run
(src/lib.rs): a pair of cells at flat index i is emitted when the cells
differ structurally; the emitted coordinates are computed from the flat
index cast usize → u16 (a wrapping cast, hence the % 65536), as
x = i % width and y = i / width. -/
def diffEmit (w : Nat) : Nat × Character × Character → Option (Nat × Nat × Character)
  | (i, newC, oldC) =>
    if newC ≠ oldC then some ((i % 65536) % w, ((i % 65536) / w, newC)) else none

/-- The frame diff of Terminal::run (src/lib.rs): flatten both buffers
row-major, zip, enumerate, and emit every differing pair of cells. -/
def frameDiff (w : Nat) (newB oldB : List (List Character)) : List (Nat × Nat × Character) :=
  ((newB.flatten.zip oldB.flatten).enum).filterMap (diffEmit w)

/-- The per-frame buffer allocation of Terminal::run (src/lib.rs):
vec![vec![Character::default(); size.0]; size.1], a fresh
default-initialized buffer. -/
def newFrameBuffer (size : Nat × Nat) : List (List Character) :=
  List.replicate size.snd (List.replicate size.fst Character.default)

/-- Observation helper for the Vec-of-Vec buffers of src/lib.rs: the cell
in row y, column x. -/
def libGet (buf : List (List Character)) (x y : Nat) : Option Character :=
  (buf.get? y).bind (fun r => r.get? x)

/-- The root view of src/lib.rs (struct View); only the on_key_press
field participates in the event-dispatch step modelled here, the child
and style fields feed the render stage. -/
structure LibView (Msg : Type) where
  on_key_press : Option (KeyEvent → Msg)

/-- Outcome of one event-dispatch step of the running loop. -/
inductive StepResult (Model : Type) where
  | quit
  | cont (m : Model)
deriving DecidableEq

/-- The event match at the bottom of the Terminal::run loop
(src/lib.rs): a key event whose code is Char q, with any modifiers,
breaks the loop; any other key event is fed to the on_key_press handler
of the current frame root view, when registered, and the update function
folds the produced message into the model; everything else is ignored. -/
def loopStep {Model Msg : Type} (update : Msg → Model → Model)
    (viewFn : Model → LibView Msg) (model : Model) (ev : Event) : StepResult Model :=
  match ev with
  | Event.key e =>
    if e.code = KeyCode.char 'q' then StepResult.quit
    else
      match (viewFn model).on_key_press with
      | some keyPress => StepResult.cont (update (keyPress e) model)
      | none => StepResult.cont model
  | _ => StepResult.cont model

/-- The running loop of Terminal::run over a finite stream of events:
the model evolves by loopStep until the stream ends or the quit key
breaks the loop; the boolean records whether the loop was terminated by
the quit key. -/
def runLoop {Model Msg : Type} (update : Msg → Model → Model)
    (viewFn : Model → LibView Msg) : Model → List Event → Model × Bool
  | m, [] => (m, false)
  | m, ev :: rest =>
    match loopStep update viewFn m ev with
    | StepResult.quit => (m, true)
    | StepResult.cont m1 => runLoop update viewFn m1 rest

/-- Boolean test for the one failure value the Rust renderer returns
through the Result Err channel: the "Unknown ViewNode" string error of
render_container.  The out-of-bounds assert and the divide-by-zero
failures are panics, not Err returns. -/
def RErr.isRustResultErr : RErr → Bool
  | RErr.unknownNode => true
  | _ => false

/-- Boolean test for the Unknown ViewNode outcome of a render call. -/
def isUnknownNodeErr : Option RErr → Bool
  | some RErr.unknownNode => true
  | _ => false

/-- Formalisation of the claim wording for the Row layout: child number i
(0-based) of a Row with n children in bounds b is rendered into origin.x
= (w / n) * i in absolute buffer coordinates, width = w - (w / n) * i,
with y origin and height unchanged. -/
def claimRowChildBounds (b : Bounds) (n i : Nat) : Bounds :=
  { origin := ((b.size.fst / n) * i, b.origin.snd)
  , size := (b.size.fst - (b.size.fst / n) * i, b.size.snd) }

/-- Formalisation of the claim wording: the children of a Row are
rendered in order, child number i into claimRowChildBounds b n i. -/
def claimRowRender {Msg : Type} (n : Nat) (b : Bounds) : Nat → List (ViewNode Msg) →
    ScreenBuffer → ScreenBuffer × Option RErr
  | _, [], s => (s, none)
  | i, c :: rest, s =>
    rbind (render c s (claimRowChildBounds b n i))
      (fun s1 => claimRowRender n b (i + 1) rest s1)

/-- A single composed grapheme: e followed by the combining acute accent
U+0301 (two code points, one user-perceived character). -/
def eAcc : String := String.mk ['e', Char.ofNat 769]

/-- A 2 x 1 buffer of default cells. -/
def demoE : ScreenBuffer := ScreenBuffer.new 2 1 Character.default

/-- Full bounds of the 2 x 1 buffer. -/
def bndE : Bounds := { origin := (0, 0), size := (2, 1) }

/-- A 3 x 2 buffer of default cells. -/
def demoC3s : ScreenBuffer := ScreenBuffer.new 3 2 Character.default

/-- A 2 x 2 region starting at column 1 of the 3 x 2 buffer. -/
def demoC3b : Bounds := { origin := (1, 0), size := (2, 2) }

/-- A style with a present foreground override and an absent background
override. -/
def demoC3st : Style := { color := some Color.red, background_color := none }

/-- A cell that differs from the default cell (its glyph is x). -/
def xCell : Character := { Character.default with character := ("x") }

/-- A row of 65535 default cells (one full row of a 65535-wide frame). -/
def bigRow : List Character := List.replicate 65535 Character.default

/-- The same row with the cell at column 1 replaced by xCell. -/
def bigNewRow : List Character :=
  Character.default :: xCell :: List.replicate 65533 Character.default

/-- A 65535 x 2 frame whose only non-default cell is at (x, y) = (1, 1),
flat index 65536. -/
def bigNew : List (List Character) := [bigRow, bigNewRow]

/-- A 65535 x 2 frame of default cells. -/
def bigOld : List (List Character) := [bigRow, bigRow]

/-- The update function of the counter example application: fold the
message value into the model by addition. -/
def demoUpdate : Nat → Nat → Nat := fun msg m => msg + m

/-- A view function whose root registers a key handler producing the
message 1. -/
def demoView : Nat → LibView Nat := fun _ => { on_key_press := some (fun _ => 1) }

/-- A view function whose root registers no key handler. -/
def demoViewNone : Nat → LibView Nat := fun _ => { on_key_press := none }

section Lemmas

theorem listModify_length (f : Character → Character) :
    ∀ (l : List Character) (n : Nat), (listModify l n f).length = l.length := by
  intro l
  induction l with
  | nil => intro n; cases n <;> rfl
  | cons a as_ ih =>
    intro n
    cases n with
    | zero => rfl
    | succ m => simpa [listModify] using ih m

theorem listModify_get?_ne (f : Character → Character) :
    ∀ (l : List Character) (n m : Nat), n ≠ m → (listModify l n f).get? m = l.get? m := by
  intro l
  induction l with
  | nil => intro n m _; cases n <;> rfl
  | cons a as_ ih =>
    intro n m hnm
    cases n with
    | zero =>
      cases m with
      | zero => exact absurd rfl hnm
      | succ m1 => rfl
    | succ n1 =>
      cases m with
      | zero => rfl
      | succ m1 =>
        have : n1 ≠ m1 := by omega
        simpa [listModify, List.get?] using ih n1 m1 this

theorem listModify_get?_eq (f : Character → Character) :
    ∀ (l : List Character) (n : Nat), (listModify l n f).get? n = (l.get? n).map f := by
  intro l
  induction l with
  | nil => intro n; cases n <;> rfl
  | cons a as_ ih =>
    intro n
    cases n with
    | zero => rfl
    | succ m => simpa [listModify, List.get?] using ih m

/-- Row-major flat addressing is injective on in-range columns. -/
theorem flatIndex_inj {w x c y r : Nat} (hx : x < w) (hc : c < w)
    (h : y * w + x = r * w + c) : x = c ∧ y = r := by
  have hw : 0 < w := by omega
  have e1 : y * w + x = x + y * w := by omega
  have e2 : r * w + c = c + r * w := by omega
  constructor
  · have h1 : (x + y * w) % w = x := by
      rw [Nat.add_mul_mod_self_right]
      exact Nat.mod_eq_of_lt hx
    have h2 : (c + r * w) % w = c := by
      rw [Nat.add_mul_mod_self_right]
      exact Nat.mod_eq_of_lt hc
    rw [e1, e2] at h
    rw [h, h2] at h1
    omega
  · have h1 : (x + y * w) / w = y := by
      rw [Nat.add_mul_div_right _ _ hw, Nat.div_eq_of_lt hx]
      omega
    have h2 : (c + r * w) / w = r := by
      rw [Nat.add_mul_div_right _ _ hw, Nat.div_eq_of_lt hc]
      omega
    rw [e1, e2] at h
    rw [h, h2] at h1
    omega

theorem setCell_width (s : ScreenBuffer) (c r : Nat) (f : Character → Character) :
    ((s.setCell c r f).fst).width = s.width := by
  unfold ScreenBuffer.setCell
  split <;> rfl

theorem setCell_height (s : ScreenBuffer) (c r : Nat) (f : Character → Character) :
    ((s.setCell c r f).fst).height = s.height := by
  unfold ScreenBuffer.setCell
  split <;> rfl

theorem setCell_snd_none (s : ScreenBuffer) (c r : Nat) (f : Character → Character)
    (hc : c < s.width) (hr : r < s.height) : (s.setCell c r f).snd = none := by
  unfold ScreenBuffer.setCell
  rw [if_pos ⟨hc, hr⟩]

theorem setCell_get?_ne (s : ScreenBuffer) (c r x y : Nat) (f : Character → Character)
    (hne : x ≠ c ∨ y ≠ r) : ((s.setCell c r f).fst).get? x y = s.get? x y := by
  unfold ScreenBuffer.setCell
  split
  case isTrue hin =>
    unfold ScreenBuffer.get?
    simp only []
    split
    case isTrue hget =>
      apply listModify_get?_ne
      intro hidx
      rcases @flatIndex_inj s.width c x r y hin.1 hget.1 hidx with ⟨hx, hy⟩
      rcases hne with h | h
      · exact h hx.symm
      · exact h hy.symm
    case isFalse => rfl
  case isFalse => rfl

theorem setCell_get?_eq (s : ScreenBuffer) (c r : Nat) (f : Character → Character)
    (hc : c < s.width) (hr : r < s.height) :
    ((s.setCell c r f).fst).get? c r = (s.get? c r).map f := by
  unfold ScreenBuffer.setCell
  rw [if_pos ⟨hc, hr⟩]
  unfold ScreenBuffer.get?
  simp only []
  rw [if_pos ⟨hc, hr⟩, if_pos ⟨hc, hr⟩]
  exact listModify_get?_eq f s.data (r * s.width + c)

theorem rbind_of_none {r : ScreenBuffer × Option RErr} {k : ScreenBuffer → ScreenBuffer × Option RErr}
    (h : r.snd = none) : rbind r k = k r.fst := by
  rcases r with ⟨s, e⟩
  cases e with
  | none => rfl
  | some e1 => simp at h

theorem rbind_of_some {r : ScreenBuffer × Option RErr} {k : ScreenBuffer → ScreenBuffer × Option RErr}
    (e : RErr) (h : r.snd = some e) : rbind r k = r := by
  rcases r with ⟨s, e1⟩
  cases e1 with
  | none => simp at h
  | some e2 => rfl

theorem setCell_fail (s : ScreenBuffer) (c r : Nat) (f : Character → Character)
    (h : ¬(c < s.width ∧ r < s.height)) : s.setCell c r f = (s, some RErr.panicOOB) := by
  unfold ScreenBuffer.setCell
  rw [if_neg h]

theorem setCell_snd_cases (s : ScreenBuffer) (c r : Nat) (f : Character → Character) :
    (s.setCell c r f).snd = none ∨ (s.setCell c r f).snd = some RErr.panicOOB := by
  unfold ScreenBuffer.setCell
  split
  · exact Or.inl rfl
  · exact Or.inr rfl

theorem fillRowAux_succ (st : Style) (y x n : Nat) (s : ScreenBuffer) :
    fillRowAux st y x (n + 1) s =
      rbind (s.setCell x y (fillCharacter st)) (fun s1 => fillRowAux st y (x + 1) n s1) := rfl

theorem fillRectAux_succ (st : Style) (ox nx y n : Nat) (s : ScreenBuffer) :
    fillRectAux st ox nx y (n + 1) s =
      rbind (fillRowAux st y ox nx s) (fun s1 => fillRectAux st ox nx (y + 1) n s1) := rfl

theorem renderTextAux_cons (x y i : Nat) (g : String) (rest : List String) (s : ScreenBuffer) :
    renderTextAux x y i (g :: rest) s =
      rbind (s.setCell (x + i) y (fun c => { c with character := g }))
        (fun s1 => renderTextAux x y (i + 1) rest s1) := rfl

theorem fillRowAux_dims (st : Style) (y : Nat) :
    ∀ (n x : Nat) (s : ScreenBuffer),
      ((fillRowAux st y x n s).fst).width = s.width ∧
      ((fillRowAux st y x n s).fst).height = s.height := by
  intro n
  induction n with
  | zero => intro x s; exact ⟨rfl, rfl⟩
  | succ m ih =>
    intro x s
    rw [fillRowAux_succ]
    rcases setCell_snd_cases s x y (fillCharacter st) with hn | hp
    · rw [rbind_of_none hn]
      rcases ih (x + 1) ((s.setCell x y (fillCharacter st)).fst) with ⟨ihw, ihh⟩
      rw [ihw, ihh, setCell_width, setCell_height]
      exact ⟨rfl, rfl⟩
    · rw [rbind_of_some RErr.panicOOB hp]
      exact ⟨setCell_width s x y (fillCharacter st), setCell_height s x y (fillCharacter st)⟩

theorem fillRowAux_other_row (st : Style) (y : Nat) :
    ∀ (n x : Nat) (s : ScreenBuffer) (a b : Nat), b ≠ y →
      ((fillRowAux st y x n s).fst).get? a b = s.get? a b := by
  intro n
  induction n with
  | zero => intro x s a b _; rfl
  | succ m ih =>
    intro x s a b hb
    have hs1 := setCell_get?_ne s x y a b (fillCharacter st) (Or.inr hb)
    rw [fillRowAux_succ]
    rcases setCell_snd_cases s x y (fillCharacter st) with hn | hp
    · rw [rbind_of_none hn]
      rw [ih (x + 1) ((s.setCell x y (fillCharacter st)).fst) a b hb]
      exact hs1
    · rw [rbind_of_some RErr.panicOOB hp]
      exact hs1

theorem fillRowAux_spec (st : Style) (y : Nat) :
    ∀ (n x : Nat) (s : ScreenBuffer), x + n ≤ s.width → y < s.height →
      (fillRowAux st y x n s).snd = none ∧
      ∀ a b : Nat, ((fillRowAux st y x n s).fst).get? a b =
        (if b = y ∧ x ≤ a ∧ a < x + n then (s.get? a b).map (fillCharacter st) else s.get? a b) := by
  intro n
  induction n with
  | zero =>
    intro x s _ _
    refine ⟨rfl, ?_⟩
    intro a b
    rw [if_neg (by omega)]
    rfl
  | succ m ih =>
    intro x s hxw hyh
    have hx : x < s.width := by omega
    have hsnd := setCell_snd_none s x y (fillCharacter st) hx hyh
    have hdw := setCell_width s x y (fillCharacter st)
    have hdh := setCell_height s x y (fillCharacter st)
    rw [fillRowAux_succ, rbind_of_none hsnd]
    have ihm := ih (x + 1) ((s.setCell x y (fillCharacter st)).fst)
      (by rw [hdw]; omega) (by rw [hdh]; omega)
    refine ⟨ihm.1, ?_⟩
    intro a b
    rw [ihm.2 a b]
    by_cases hb : b = y
    · subst hb
      by_cases ha0 : a = x
      · subst ha0
        rw [if_neg (by omega), if_pos (by omega)]
        exact setCell_get?_eq s a b (fillCharacter st) hx hyh
      · by_cases ha1 : x + 1 ≤ a ∧ a < x + 1 + m
        · rw [if_pos (by omega), if_pos (by omega)]
          rw [setCell_get?_ne s x b a b (fillCharacter st) (Or.inl ha0)]
        · rw [if_neg (by omega), if_neg (by omega)]
          exact setCell_get?_ne s x b a b (fillCharacter st) (Or.inl ha0)
    · rw [if_neg (by omega), if_neg (by omega)]
      exact setCell_get?_ne s x y a b (fillCharacter st) (Or.inr hb)

theorem fillRowAux_snd_cases (st : Style) (y : Nat) :
    ∀ (n x : Nat) (s : ScreenBuffer),
      (fillRowAux st y x n s).snd = none ∨ (fillRowAux st y x n s).snd = some RErr.panicOOB := by
  intro n
  induction n with
  | zero => intro x s; exact Or.inl rfl
  | succ m ih =>
    intro x s
    rw [fillRowAux_succ]
    rcases setCell_snd_cases s x y (fillCharacter st) with hn | hp
    · rw [rbind_of_none hn]
      exact ih (x + 1) ((s.setCell x y (fillCharacter st)).fst)
    · rw [rbind_of_some RErr.panicOOB hp]
      exact Or.inr hp

theorem fillRectAux_snd_cases (st : Style) (ox nx : Nat) :
    ∀ (n y : Nat) (s : ScreenBuffer),
      (fillRectAux st ox nx y n s).snd = none ∨
      (fillRectAux st ox nx y n s).snd = some RErr.panicOOB := by
  intro n
  induction n with
  | zero => intro y s; exact Or.inl rfl
  | succ m ih =>
    intro y s
    rw [fillRectAux_succ]
    rcases fillRowAux_snd_cases st y nx ox s with hn | hp
    · rw [rbind_of_none hn]
      exact ih (y + 1) ((fillRowAux st y ox nx s).fst)
    · rw [rbind_of_some RErr.panicOOB hp]
      exact Or.inr hp

theorem fillRectAux_dims (st : Style) (ox nx : Nat) :
    ∀ (n y : Nat) (s : ScreenBuffer),
      ((fillRectAux st ox nx y n s).fst).width = s.width ∧
      ((fillRectAux st ox nx y n s).fst).height = s.height := by
  intro n
  induction n with
  | zero => intro y s; exact ⟨rfl, rfl⟩
  | succ m ih =>
    intro y s
    rcases fillRowAux_dims st y nx ox s with ⟨hw, hh⟩
    rw [fillRectAux_succ]
    rcases fillRowAux_snd_cases st y nx ox s with hn | hp
    · rw [rbind_of_none hn]
      rcases ih (y + 1) ((fillRowAux st y ox nx s).fst) with ⟨ihw, ihh⟩
      rw [ihw, ihh, hw, hh]
      exact ⟨rfl, rfl⟩
    · rw [rbind_of_some RErr.panicOOB hp]
      exact ⟨hw, hh⟩

theorem fillRectAux_rows (st : Style) (ox nx : Nat) :
    ∀ (n y : Nat) (s : ScreenBuffer) (a b : Nat), b < y ∨ y + n ≤ b →
      ((fillRectAux st ox nx y n s).fst).get? a b = s.get? a b := by
  intro n
  induction n with
  | zero => intro y s a b _; rfl
  | succ m ih =>
    intro y s a b hb
    have hby : b ≠ y := by omega
    have hrow := fillRowAux_other_row st y nx ox s a b hby
    rw [fillRectAux_succ]
    rcases fillRowAux_snd_cases st y nx ox s with hn | hp
    · rw [rbind_of_none hn]
      rw [ih (y + 1) ((fillRowAux st y ox nx s).fst) a b (by omega)]
      exact hrow
    · rw [rbind_of_some RErr.panicOOB hp]
      exact hrow

theorem fillRectAux_spec (st : Style) (ox nx : Nat) :
    ∀ (n y : Nat) (s : ScreenBuffer), ox + nx ≤ s.width → y + n ≤ s.height →
      (fillRectAux st ox nx y n s).snd = none ∧
      ∀ a b : Nat, ((fillRectAux st ox nx y n s).fst).get? a b =
        (if y ≤ b ∧ b < y + n ∧ ox ≤ a ∧ a < ox + nx
         then (s.get? a b).map (fillCharacter st) else s.get? a b) := by
  intro n
  induction n with
  | zero =>
    intro y s _ _
    refine ⟨rfl, ?_⟩
    intro a b
    rw [if_neg (by omega)]
    rfl
  | succ m ih =>
    intro y s hxw hyh
    have hrow := fillRowAux_spec st y nx ox s (by omega) (by omega)
    rcases fillRowAux_dims st y nx ox s with ⟨hw, hh⟩
    rw [fillRectAux_succ, rbind_of_none hrow.1]
    have ihm := ih (y + 1) ((fillRowAux st y ox nx s).fst) (by rw [hw]; omega) (by rw [hh]; omega)
    refine ⟨ihm.1, ?_⟩
    intro a b
    rw [ihm.2 a b, hrow.2 a b]
    split_ifs <;> first | rfl | omega

theorem fillRect_eq (st : Style) (b : Bounds) (s : ScreenBuffer)
    (hx16 : b.origin.fst + b.size.fst < 65536) (hy16 : b.origin.snd + b.size.snd < 65536) :
    fillRect st b s =
      fillRectAux st b.origin.fst b.size.fst b.origin.snd b.size.snd s := by
  show fillRectAux st b.origin.fst ((b.origin.fst + b.size.fst) % 65536 - b.origin.fst)
      b.origin.snd ((b.origin.snd + b.size.snd) % 65536 - b.origin.snd) s = _
  rw [Nat.mod_eq_of_lt hx16, Nat.mod_eq_of_lt hy16, Nat.add_sub_cancel_left,
    Nat.add_sub_cancel_left]

theorem fillRect_spec (st : Style) (b : Bounds) (s : ScreenBuffer)
    (hx : b.origin.fst + b.size.fst ≤ s.width) (hy : b.origin.snd + b.size.snd ≤ s.height)
    (hx16 : b.origin.fst + b.size.fst < 65536) (hy16 : b.origin.snd + b.size.snd < 65536) :
    (fillRect st b s).snd = none ∧
    ∀ a bb : Nat, ((fillRect st b s).fst).get? a bb =
      (if b.origin.snd ≤ bb ∧ bb < b.origin.snd + b.size.snd ∧
          b.origin.fst ≤ a ∧ a < b.origin.fst + b.size.fst
       then (s.get? a bb).map (fillCharacter st) else s.get? a bb) := by
  rw [fillRect_eq st b s hx16 hy16]
  rcases fillRectAux_spec st b.origin.fst b.size.fst b.size.snd b.origin.snd s hx hy with ⟨h1, h2⟩
  refine ⟨h1, ?_⟩
  intro a bb
  rw [h2 a bb]

theorem fillRect_rows (st : Style) (b : Bounds) (s : ScreenBuffer) (a bb : Nat)
    (h : bb < b.origin.snd ∨ b.origin.snd + b.size.snd ≤ bb) :
    ((fillRect st b s).fst).get? a bb = s.get? a bb := by
  show ((fillRectAux st b.origin.fst ((b.origin.fst + b.size.fst) % 65536 - b.origin.fst)
      b.origin.snd ((b.origin.snd + b.size.snd) % 65536 - b.origin.snd) s).fst).get? a bb =
    s.get? a bb
  apply fillRectAux_rows
  have := Nat.mod_le (b.origin.snd + b.size.snd) 65536
  omega

theorem fillRect_snd_cases (st : Style) (b : Bounds) (s : ScreenBuffer) :
    (fillRect st b s).snd = none ∨ (fillRect st b s).snd = some RErr.panicOOB := by
  show (fillRectAux st b.origin.fst ((b.origin.fst + b.size.fst) % 65536 - b.origin.fst)
      b.origin.snd ((b.origin.snd + b.size.snd) % 65536 - b.origin.snd) s).snd = none ∨ _
  exact fillRectAux_snd_cases st b.origin.fst _ _ b.origin.snd s

theorem renderTextAux_dims (x y : Nat) :
    ∀ (gs : List String) (i : Nat) (s : ScreenBuffer),
      ((renderTextAux x y i gs s).fst).width = s.width ∧
      ((renderTextAux x y i gs s).fst).height = s.height := by
  intro gs
  induction gs with
  | nil => intro i s; exact ⟨rfl, rfl⟩
  | cons g rest ih =>
    intro i s
    rw [renderTextAux_cons]
    rcases setCell_snd_cases s (x + i) y (fun c => { c with character := g }) with hn | hp
    · rw [rbind_of_none hn]
      rcases ih (i + 1) ((s.setCell (x + i) y (fun c => { c with character := g })).fst)
        with ⟨ihw, ihh⟩
      rw [ihw, ihh, setCell_width, setCell_height]
      exact ⟨rfl, rfl⟩
    · rw [rbind_of_some RErr.panicOOB hp]
      exact ⟨setCell_width s (x + i) y (fun c => { c with character := g }),
        setCell_height s (x + i) y (fun c => { c with character := g })⟩

theorem renderTextAux_snd_cases (x y : Nat) :
    ∀ (gs : List String) (i : Nat) (s : ScreenBuffer),
      (renderTextAux x y i gs s).snd = none ∨
      (renderTextAux x y i gs s).snd = some RErr.panicOOB := by
  intro gs
  induction gs with
  | nil => intro i s; exact Or.inl rfl
  | cons g rest ih =>
    intro i s
    rw [renderTextAux_cons]
    rcases setCell_snd_cases s (x + i) y (fun c => { c with character := g }) with hn | hp
    · rw [rbind_of_none hn]
      exact ih (i + 1) ((s.setCell (x + i) y (fun c => { c with character := g })).fst)
    · rw [rbind_of_some RErr.panicOOB hp]
      exact Or.inr hp

theorem renderTextAux_other_row (x y : Nat) :
    ∀ (gs : List String) (i : Nat) (s : ScreenBuffer) (a b : Nat), b ≠ y →
      ((renderTextAux x y i gs s).fst).get? a b = s.get? a b := by
  intro gs
  induction gs with
  | nil => intro i s a b _; rfl
  | cons g rest ih =>
    intro i s a b hb
    have hs1 := setCell_get?_ne s (x + i) y a b (fun c => { c with character := g }) (Or.inr hb)
    rw [renderTextAux_cons]
    rcases setCell_snd_cases s (x + i) y (fun c => { c with character := g }) with hn | hp
    · rw [rbind_of_none hn]
      rw [ih (i + 1) ((s.setCell (x + i) y (fun c => { c with character := g })).fst) a b hb]
      exact hs1
    · rw [rbind_of_some RErr.panicOOB hp]
      exact hs1

theorem renderTextAux_spec (x y : Nat) :
    ∀ (gs : List String) (i : Nat) (s : ScreenBuffer), y < s.height →
      x + i + gs.length ≤ s.width →
      (renderTextAux x y i gs s).snd = none ∧
      (∀ (j : Nat) (g : String), gs.get? j = some g →
        ((renderTextAux x y i gs s).fst).get? (x + i + j) y =
          (s.get? (x + i + j) y).map (fun c => { c with character := g })) ∧
      (∀ a b : Nat, (b ≠ y ∨ a < x + i ∨ x + i + gs.length ≤ a) →
        ((renderTextAux x y i gs s).fst).get? a b = s.get? a b) := by
  intro gs
  induction gs with
  | nil =>
    intro i s _ _
    refine ⟨rfl, ?_, ?_⟩
    · intro j g h
      simp [List.get?] at h
    · intro a b _
      rfl
  | cons g rest ih =>
    intro i s hyh hxw
    have hx : x + i < s.width := by
      have := List.length_cons g rest
      omega
    have hlen : x + i + (g :: rest).length = x + (i + 1) + rest.length := by
      rw [List.length_cons]
      omega
    have hsnd := setCell_snd_none s (x + i) y (fun c => { c with character := g }) hx hyh
    have hdw := setCell_width s (x + i) y (fun c => { c with character := g })
    have hdh := setCell_height s (x + i) y (fun c => { c with character := g })
    rw [renderTextAux_cons, rbind_of_none hsnd]
    have ihm := ih (i + 1) ((s.setCell (x + i) y (fun c => { c with character := g })).fst)
      (by rw [hdh]; exact hyh) (by rw [hdw]; omega)
    refine ⟨ihm.1, ?_, ?_⟩
    · intro j g1 hj
      cases j with
      | zero =>
        have hg : g1 = g := by
          simp [List.get?] at hj
          exact hj.symm
        subst hg
        have hnotin := ihm.2.2 (x + i + 0) y (Or.inr (Or.inl (by omega)))
        rw [hnotin]
        have heq := setCell_get?_eq s (x + i) y (fun c => { c with character := g1 }) hx hyh
        have e0 : x + i + 0 = x + i := by omega
        rw [e0]
        exact heq
      | succ j1 =>
        have hj1 : rest.get? j1 = some g1 := by
          simpa [List.get?] using hj
        have e1 : x + i + (j1 + 1) = x + (i + 1) + j1 := by omega
        rw [e1, ihm.2.1 j1 g1 hj1]
        rw [setCell_get?_ne s (x + i) y (x + (i + 1) + j1) y
          (fun c => { c with character := g }) (Or.inl (by omega))]
    · intro a b hout
      have hout1 : b ≠ y ∨ a < x + (i + 1) ∨ x + (i + 1) + rest.length ≤ a := by
        rcases hout with h | h | h
        · exact Or.inl h
        · exact Or.inr (Or.inl (by omega))
        · exact Or.inr (Or.inr (by omega))
      rw [ihm.2.2 a b hout1]
      have hne : a ≠ x + i ∨ b ≠ y := by
        rcases hout with h | h | h
        · exact Or.inr h
        · exact Or.inl (by omega)
        · rw [List.length_cons] at h
          exact Or.inl (by omega)
      exact setCell_get?_ne s (x + i) y a b (fun c => { c with character := g }) hne

theorem renderTextAux_oob (x y : Nat) :
    ∀ (gs : List String) (i : Nat) (s : ScreenBuffer), gs ≠ [] →
      (s.height ≤ y ∨ s.width < x + i + gs.length) →
      (renderTextAux x y i gs s).snd = some RErr.panicOOB := by
  intro gs
  induction gs with
  | nil => intro i s hne _; exact absurd rfl hne
  | cons g rest ih =>
    intro i s _ hoob
    rw [renderTextAux_cons]
    by_cases hguard : x + i < s.width ∧ y < s.height
    · have hyh : y < s.height := hguard.2
      have hw : s.width < x + (i + 1) + rest.length := by
        rw [List.length_cons] at hoob
        omega
      have hrest : rest ≠ [] := by
        intro hempty
        subst hempty
        simp at hw
        omega
      have hsnd := setCell_snd_none s (x + i) y (fun c => { c with character := g })
        hguard.1 hguard.2
      have hdw := setCell_width s (x + i) y (fun c => { c with character := g })
      have hdh := setCell_height s (x + i) y (fun c => { c with character := g })
      rw [rbind_of_none hsnd]
      exact ih (i + 1) ((s.setCell (x + i) y (fun c => { c with character := g })).fst) hrest
        (Or.inr (by rw [hdw]; exact hw))
    · have hfail := setCell_fail s (x + i) y (fun c => { c with character := g }) hguard
      rw [rbind_of_some RErr.panicOOB (by rw [hfail])]
      rw [hfail]

theorem rowChildBounds_origin_snd (offset : Nat) (b : Bounds) (i : Nat) :
    (rowChildBounds offset b i).origin.snd = b.origin.snd := rfl

theorem rowChildBounds_size_snd (offset : Nat) (b : Bounds) (i : Nat) :
    (rowChildBounds offset b i).size.snd = b.size.snd := rfl

theorem render_None {Msg : Type} (s : ScreenBuffer) (b : Bounds) :
    render (ViewNode.None : ViewNode Msg) s b = (s, none) := by
  unfold render
  rfl

theorem render_Text {Msg : Type} (t : String) (s : ScreenBuffer) (b : Bounds) :
    render (ViewNode.Text t : ViewNode Msg) s b = renderText t s b := by
  unfold render
  rfl

theorem render_Column {Msg : Type} (c : List (ViewNode Msg)) (s : ScreenBuffer) (b : Bounds) :
    render (ViewNode.Column c) s b = renderColumn c s b := by
  unfold render
  rfl

theorem render_Row {Msg : Type} (r : List (ViewNode Msg)) (s : ScreenBuffer) (b : Bounds) :
    render (ViewNode.Row r) s b = renderRow r s b := by
  unfold render
  rfl

theorem render_Container {Msg : Type} (child : ViewNode Msg) (st : Style)
    (k : Option (KeyEvent → Msg)) (s : ScreenBuffer) (b : Bounds) :
    render (ViewNode.Container child st k) s b =
      renderContainer (ViewNode.Container child st k) s b := by
  unfold render
  rfl

theorem renderRow_def {Msg : Type} (rows : List (ViewNode Msg)) (s : ScreenBuffer) (b : Bounds) :
    renderRow rows s b =
      (if rows.length % 65536 = 0 then (s, some RErr.panicDivZero)
       else renderRowAux (b.size.fst / (rows.length % 65536)) b 0 rows s) := by
  unfold renderRow
  rfl

theorem renderRowAux_nil {Msg : Type} (offset : Nat) (b : Bounds) (i : Nat) (s : ScreenBuffer) :
    renderRowAux offset b i ([] : List (ViewNode Msg)) s = (s, none) := by
  unfold renderRowAux
  rfl

theorem renderRowAux_cons {Msg : Type} (offset : Nat) (b : Bounds) (i : Nat) (c : ViewNode Msg)
    (rest : List (ViewNode Msg)) (s : ScreenBuffer) :
    renderRowAux offset b i (c :: rest) s =
      rbind (render c s (rowChildBounds offset b i))
        (fun s1 => renderRowAux offset b (i + 1) rest s1) := by
  conv_lhs => unfold renderRowAux

theorem renderContainer_Container {Msg : Type} (child : ViewNode Msg) (st : Style)
    (k : Option (KeyEvent → Msg)) (s : ScreenBuffer) (b : Bounds) :
    renderContainer (ViewNode.Container child st k) s b =
      rbind (fillRect st b s) (fun s1 => render child s1 b) := by
  unfold renderContainer
  rfl

theorem render_rows_confined {Msg : Type} :
    ∀ N : Nat,
      (∀ (v : ViewNode Msg) (s : ScreenBuffer) (b : Bounds), sizeOf v ≤ N →
        1 ≤ b.size.snd → ∀ xx yy : Nat,
        yy < b.origin.snd ∨ b.origin.snd + b.size.snd ≤ yy →
        ((render v s b).fst).get? xx yy = s.get? xx yy) ∧
      (∀ (rows : List (ViewNode Msg)) (offset : Nat) (bb : Bounds) (i : Nat) (s : ScreenBuffer),
        sizeOf rows ≤ N → 1 ≤ bb.size.snd → ∀ xx yy : Nat,
        yy < bb.origin.snd ∨ bb.origin.snd + bb.size.snd ≤ yy →
        ((renderRowAux offset bb i rows s).fst).get? xx yy = s.get? xx yy) := by
  intro N
  induction N using Nat.strong_induction_on with
  | _ N IH =>
    constructor
    · intro v s b hsz hh xx yy hout
      cases v with
      | None => rw [render_None]
      | Text t =>
        rw [render_Text]
        unfold renderText
        exact renderTextAux_other_row b.origin.fst b.origin.snd (graphemes t) 0 s xx yy (by omega)
      | Column c => rw [render_Column]; rfl
      | Row rs =>
        rw [render_Row, renderRow_def]
        by_cases hlen : rs.length % 65536 = 0
        · rw [if_pos hlen]
        · rw [if_neg hlen]
          have hlt : sizeOf rs < N := by
            have h1 := ViewNode.Row.sizeOf_spec rs
            omega
          exact (IH (sizeOf rs) hlt).2 rs _ b 0 s (le_refl _) hh xx yy hout
      | Container child st k =>
        rw [render_Container, renderContainer_Container]
        rcases fillRect_snd_cases st b s with hn | hp
        · rw [rbind_of_none hn]
          have hlt : sizeOf child < N := by
            have h1 := ViewNode.Container.sizeOf_spec child st k
            omega
          rw [(IH (sizeOf child) hlt).1 child ((fillRect st b s).fst) b (le_refl _) hh xx yy hout]
          exact fillRect_rows st b s xx yy hout
        · rw [rbind_of_some RErr.panicOOB hp]
          exact fillRect_rows st b s xx yy hout
    · intro rows offset bb i s hsz hh xx yy hout
      cases rows with
      | nil => rw [renderRowAux_nil]
      | cons c rest =>
        rw [renderRowAux_cons]
        have hc : sizeOf c < N := by
          have h1 := List.cons.sizeOf_spec c rest
          omega
        have hrest : sizeOf rest < N := by
          have h1 := List.cons.sizeOf_spec c rest
          omega
        have houtc : yy < (rowChildBounds offset bb i).origin.snd ∨
            (rowChildBounds offset bb i).origin.snd + (rowChildBounds offset bb i).size.snd ≤ yy := by
          rw [rowChildBounds_origin_snd, rowChildBounds_size_snd]
          exact hout
        have hhc : 1 ≤ (rowChildBounds offset bb i).size.snd := by
          rw [rowChildBounds_size_snd]
          exact hh
        rcases hrc : (render c s (rowChildBounds offset bb i)).snd with _ | e
        · rw [rbind_of_none hrc]
          rw [(IH (sizeOf rest) hrest).2 rest offset bb (i + 1)
            ((render c s (rowChildBounds offset bb i)).fst) (le_refl _) hh xx yy hout]
          exact (IH (sizeOf c) hc).1 c s (rowChildBounds offset bb i) (le_refl _) hhc xx yy houtc
        · rw [rbind_of_some e hrc]
          exact (IH (sizeOf c) hc).1 c s (rowChildBounds offset bb i) (le_refl _) hhc xx yy houtc

theorem render_not_unknown_aux {Msg : Type} :
    ∀ N : Nat,
      (∀ (v : ViewNode Msg) (s : ScreenBuffer) (b : Bounds), sizeOf v ≤ N →
        isUnknownNodeErr ((render v s b).snd) = false) ∧
      (∀ (rows : List (ViewNode Msg)) (offset : Nat) (bb : Bounds) (i : Nat) (s : ScreenBuffer),
        sizeOf rows ≤ N → isUnknownNodeErr ((renderRowAux offset bb i rows s).snd) = false) := by
  intro N
  induction N using Nat.strong_induction_on with
  | _ N IH =>
    constructor
    · intro v s b hsz
      cases v with
      | None => rw [render_None]; rfl
      | Text t =>
        rw [render_Text]
        unfold renderText
        rcases renderTextAux_snd_cases b.origin.fst b.origin.snd (graphemes t) 0 s with hn | hp
        · rw [hn]; rfl
        · rw [hp]; rfl
      | Column c => rw [render_Column]; rfl
      | Row rs =>
        rw [render_Row, renderRow_def]
        by_cases hlen : rs.length % 65536 = 0
        · rw [if_pos hlen]; rfl
        · rw [if_neg hlen]
          have hlt : sizeOf rs < N := by
            have h1 := ViewNode.Row.sizeOf_spec rs
            omega
          exact (IH (sizeOf rs) hlt).2 rs _ b 0 s (le_refl _)
      | Container child st k =>
        rw [render_Container, renderContainer_Container]
        rcases fillRect_snd_cases st b s with hn | hp
        · rw [rbind_of_none hn]
          have hlt : sizeOf child < N := by
            have h1 := ViewNode.Container.sizeOf_spec child st k
            omega
          exact (IH (sizeOf child) hlt).1 child ((fillRect st b s).fst) b (le_refl _)
        · rw [rbind_of_some RErr.panicOOB hp, hp]; rfl
    · intro rows offset bb i s hsz
      cases rows with
      | nil => rw [renderRowAux_nil]; rfl
      | cons c rest =>
        rw [renderRowAux_cons]
        have hc : sizeOf c < N := by
          have h1 := List.cons.sizeOf_spec c rest
          omega
        have hrest : sizeOf rest < N := by
          have h1 := List.cons.sizeOf_spec c rest
          omega
        rcases hrc : (render c s (rowChildBounds offset bb i)).snd with _ | e
        · rw [rbind_of_none hrc]
          exact (IH (sizeOf rest) hrest).2 rest offset bb (i + 1)
            ((render c s (rowChildBounds offset bb i)).fst) (le_refl _)
        · rw [rbind_of_some e hrc]
          exact (IH (sizeOf c) hc).1 c s (rowChildBounds offset bb i) (le_refl _)

theorem claimRowRender_nil {Msg : Type} (n : Nat) (b : Bounds) (i : Nat) (s : ScreenBuffer) :
    claimRowRender n b i ([] : List (ViewNode Msg)) s = (s, none) := rfl

theorem claimRowRender_cons {Msg : Type} (n : Nat) (b : Bounds) (i : Nat) (c : ViewNode Msg)
    (rest : List (ViewNode Msg)) (s : ScreenBuffer) :
    claimRowRender n b i (c :: rest) s =
      rbind (render c s (claimRowChildBounds b n i))
        (fun s1 => claimRowRender n b (i + 1) rest s1) := rfl

theorem rowChildBounds_eq_claim (b : Bounds) (n i : Nat) (hn : n ≤ 65535) (hi : i < n)
    (hw : b.size.fst < 65536) :
    rowChildBounds (b.size.fst / n) b i = claimRowChildBounds b n i := by
  have himod : i % 65536 = i := Nat.mod_eq_of_lt (by omega)
  have hle : b.size.fst / n * i ≤ b.size.fst := by
    calc b.size.fst / n * i ≤ b.size.fst / n * n :=
          Nat.mul_le_mul_left (b.size.fst / n) (by omega)
      _ ≤ b.size.fst := Nat.div_mul_le_self b.size.fst n
  have hm : b.size.fst / n * i % 65536 = b.size.fst / n * i := Nat.mod_eq_of_lt (by omega)
  unfold rowChildBounds claimRowChildBounds wsub
  rw [himod, hm, Nat.mod_eq_of_lt hw, hm]
  have hsub : b.size.fst + (65536 - b.size.fst / n * i) =
      65536 + (b.size.fst - b.size.fst / n * i) := by omega
  rw [hsub, Nat.add_mod_left, Nat.mod_eq_of_lt (by omega)]

theorem renderRowAux_eq_claim {Msg : Type} (n : Nat) (b : Bounds) (hn : n ≤ 65535)
    (hw : b.size.fst < 65536) :
    ∀ (cs : List (ViewNode Msg)) (i : Nat) (s : ScreenBuffer), i + cs.length ≤ n →
      renderRowAux (b.size.fst / n) b i cs s = claimRowRender n b i cs s := by
  intro cs
  induction cs with
  | nil => intro i s _; rw [renderRowAux_nil, claimRowRender_nil]
  | cons c rest ih =>
    intro i s hlen
    have hi : i < n := by
      have := List.length_cons c rest
      omega
    rw [renderRowAux_cons, claimRowRender_cons, rowChildBounds_eq_claim b n i hn hi hw]
    refine congrArg (rbind (render c s (claimRowChildBounds b n i))) (funext fun s1 => ?_)
    apply ih
    have := List.length_cons c rest
    omega

theorem runLoop_cons {Model Msg : Type} (update : Msg → Model → Model)
    (viewFn : Model → LibView Msg) (m : Model) (ev : Event) (rest : List Event) :
    runLoop update viewFn m (ev :: rest) =
      (match loopStep update viewFn m ev with
       | StepResult.quit => (m, true)
       | StepResult.cont m1 => runLoop update viewFn m1 rest) := rfl

theorem loopStep_quit {Model Msg : Type} (update : Msg → Model → Model)
    (viewFn : Model → LibView Msg) (m : Model) (e : KeyEvent)
    (h : e.code = KeyCode.char 'q') :
    loopStep update viewFn m (Event.key e) = StepResult.quit := by
  show (if e.code = KeyCode.char 'q' then StepResult.quit
    else
      match (viewFn m).on_key_press with
      | some keyPress => StepResult.cont (update (keyPress e) m)
      | none => StepResult.cont m) = StepResult.quit
  rw [if_pos h]

theorem loopStep_key_other {Model Msg : Type} (update : Msg → Model → Model)
    (viewFn : Model → LibView Msg) (m : Model) (e : KeyEvent)
    (h : ¬e.code = KeyCode.char 'q') :
    loopStep update viewFn m (Event.key e) =
      (match (viewFn m).on_key_press with
       | some keyPress => StepResult.cont (update (keyPress e) m)
       | none => StepResult.cont m) := by
  show (if e.code = KeyCode.char 'q' then StepResult.quit
    else
      match (viewFn m).on_key_press with
      | some keyPress => StepResult.cont (update (keyPress e) m)
      | none => StepResult.cont m) = _
  rw [if_neg h]

theorem enum_eq_enumFrom {α : Type} (l : List α) : l.enum = l.enumFrom 0 := rfl

theorem enumFrom_append_tel {α : Type} :
    ∀ (l r : List α) (k : Nat), (l ++ r).enumFrom k = l.enumFrom k ++ r.enumFrom (k + l.length) := by
  intro l
  induction l with
  | nil => intro r k; simp [List.enumFrom]
  | cons a t ih =>
    intro r k
    show (k, a) :: (t ++ r).enumFrom (k + 1) = (k, a) :: t.enumFrom (k + 1) ++ r.enumFrom (k + (a :: t).length)
    rw [ih r (k + 1), List.length_cons]
    have : k + 1 + t.length = k + (t.length + 1) := by omega
    rw [this, List.cons_append]

theorem zip_append_tel {α β : Type} :
    ∀ (a : List α) (b : List β) (c : List α) (d : List β), a.length = b.length →
      (a ++ c).zip (b ++ d) = a.zip b ++ c.zip d := by
  intro a
  induction a with
  | nil =>
    intro b c d h
    cases b with
    | nil => simp
    | cons y ys => simp at h
  | cons x xs ih =>
    intro b c d h
    cases b with
    | nil => simp at h
    | cons y ys =>
      have h1 : xs.length = ys.length := by
        simp [List.length_cons] at h
        exact h
      show (x, y) :: (xs ++ c).zip (ys ++ d) = (x, y) :: xs.zip ys ++ c.zip d
      rw [ih ys c d h1, List.cons_append]

theorem diffEmit_replicate_none (w : Nat) (ch : Character) :
    ∀ (n k : Nat), ((List.replicate n (ch, ch)).enumFrom k).filterMap (diffEmit w) = [] := by
  intro n
  induction n with
  | zero => intro k; rfl
  | succ m ih =>
    intro k
    show List.filterMap (diffEmit w) ((k, ch, ch) :: (List.replicate m (ch, ch)).enumFrom (k + 1)) = []
    rw [List.filterMap_cons]
    have he : diffEmit w (k, ch, ch) = none := by
      show (if ch ≠ ch then some (k % 65536 % w, k % 65536 / w, ch) else none) = none
      rw [if_neg (by simp)]
    rw [he]
    exact ih (k + 1)

theorem enumFrom_cons_tel {α : Type} (a : α) (t : List α) (k : Nat) :
    (a :: t).enumFrom k = (k, a) :: t.enumFrom (k + 1) := rfl

theorem fillCharacter_spell (st : Style) :
    fillCharacter st = (fun c =>
      { foreground_color := match st.color with | some fc => fc | none => c.foreground_color
      , background_color :=
          match st.background_color with | some bc => bc | none => c.background_color
      , character := (" ") }) := by
  funext c
  rcases st with ⟨co, bg⟩
  cases co <;> cases bg <;> rfl

end Lemmas

section Claims

/-- C1: on buffers of identical dimensions with more than 65536 cells the
frame diff of Terminal::run does not list the coordinates of the cells
that differ: the usize flat index is cast to u16 before x and y are
recovered, so on the 65535 x 2 frames bigNew and bigOld, whose only
differing cell sits at (x, y) = (1, 1) (flat index 65536), the single
emitted entry carries the truncated coordinate (0, 0) - a cell at which
the two buffers agree - and the genuinely differing cell (1, 1) is
listed under the wrong coordinate. -/
theorem C1_diff_wrong_coordinate :
    frameDiff 65535 bigNew bigOld = [(0, (0, xCell))] ∧
    (libGet bigNew 0 0 == libGet bigOld 0 0) = true ∧
    (libGet bigNew 1 1 == libGet bigOld 1 1) = false := by
  refine ⟨?_, by decide, by decide⟩
  have h1 : bigNew.flatten = bigRow ++ bigNewRow := by simp [bigNew]
  have h2 : bigOld.flatten = bigRow ++ bigRow := by simp [bigOld]
  have hzip1 : bigRow.zip bigRow =
      List.replicate 65535 (Character.default, Character.default) := by
    show (List.replicate 65535 Character.default).zip (List.replicate 65535 Character.default) = _
    rw [List.zip_replicate, Nat.min_self]
  have hrow : bigRow =
      Character.default :: Character.default :: List.replicate 65533 Character.default := by
    show List.replicate 65535 Character.default = _
    rw [show (65535 : Nat) = 65534 + 1 from rfl, List.replicate_succ,
        show (65534 : Nat) = 65533 + 1 from rfl, List.replicate_succ]
  have hzip2 : bigNewRow.zip bigRow =
      (Character.default, Character.default) :: (xCell, Character.default) ::
        List.replicate 65533 (Character.default, Character.default) := by
    rw [hrow]
    show (Character.default :: xCell :: List.replicate 65533 Character.default).zip _ = _
    rw [List.zip_cons_cons, List.zip_cons_cons, List.zip_replicate, Nat.min_self]
  show ((bigNew.flatten.zip bigOld.flatten).enum).filterMap (diffEmit 65535) = _
  rw [h1, h2, zip_append_tel bigRow bigRow bigNewRow bigRow rfl, hzip1, hzip2,
    enum_eq_enumFrom, enumFrom_append_tel, List.length_replicate,
    List.filterMap_append, diffEmit_replicate_none 65535 Character.default 65535 0,
    enumFrom_cons_tel, enumFrom_cons_tel,
    List.filterMap_cons_none (by decide),
    List.filterMap_cons_some
      (show diffEmit 65535 (0 + 65535 + 1, xCell, Character.default) = some (0, (0, xCell))
        from by decide),
    diffEmit_replicate_none 65535 Character.default 65533 (0 + 65535 + 1 + 1)]
  rfl

/-- C2 counterexample: a Row node with exactly 65536 children violates
the claimed layout for every n with at least one child, because the
usize child count is cast to u16, becomes 0, and the slice-width
division panics, so not a single child is rendered into the claimed
bounds (even though every child here is the no-op None node). -/
theorem C2_cex_row_65536_children :
    render (ViewNode.Row (List.replicate 65536 (ViewNode.None : ViewNode Nat)))
        (ScreenBuffer.new 30 1 Character.default) { origin := (0, 0), size := (30, 1) } =
      (ScreenBuffer.new 30 1 Character.default, some RErr.panicDivZero) := by
  rw [render_Row, renderRow_def, List.length_replicate]
  norm_num

/-- C2 (amended to Rows with 1 to 65535 children and a u16 width): for a
Row of n children rendered into bounds b, the children are rendered in
order and child i receives origin.x = (w / n) * i in absolute buffer
coordinates (not translated by the parent origin.x), width
w - (w / n) * i, and the y origin and height of b unchanged - precisely
claimRowRender over claimRowChildBounds. -/
theorem C2_row_child_bounds {Msg : Type} (cs : List (ViewNode Msg)) (s : ScreenBuffer)
    (b : Bounds) (h1 : 1 ≤ cs.length) (h2 : cs.length ≤ 65535) (h3 : b.size.fst < 65536) :
    render (ViewNode.Row cs) s b = claimRowRender cs.length b 0 cs s := by
  rw [render_Row, renderRow_def]
  have hmod : cs.length % 65536 = cs.length := Nat.mod_eq_of_lt (by omega)
  rw [hmod, if_neg (by omega)]
  exact renderRowAux_eq_claim cs.length b h2 h3 cs 0 s (by omega)

/-- C2 witness: a Row of 3 children in a width 30 region renders the
children at the claimed bounds, and those bounds are the slice widths
30, 20, 10 at x origins 0, 10, 20 of the claim. -/
theorem C2_witness :
    render (ViewNode.Row [ViewNode.None, ViewNode.None, (ViewNode.None : ViewNode Nat)])
        (ScreenBuffer.new 30 1 Character.default) { origin := (0, 0), size := (30, 1) } =
      claimRowRender 3 { origin := (0, 0), size := (30, 1) } 0
        ([ViewNode.None, ViewNode.None, ViewNode.None] : List (ViewNode Nat))
        (ScreenBuffer.new 30 1 Character.default) ∧
    claimRowChildBounds { origin := (0, 0), size := (30, 1) } 3 0 =
      { origin := (0, 0), size := (30, 1) } ∧
    claimRowChildBounds { origin := (0, 0), size := (30, 1) } 3 1 =
      { origin := (10, 0), size := (20, 1) } ∧
    claimRowChildBounds { origin := (0, 0), size := (30, 1) } 3 2 =
      { origin := (20, 0), size := (10, 1) } := by
  refine ⟨?_, by decide, by decide, by decide⟩
  exact C2_row_child_bounds [ViewNode.None, ViewNode.None, (ViewNode.None : ViewNode Nat)]
    (ScreenBuffer.new 30 1 Character.default) { origin := (0, 0), size := (30, 1) }
    (by decide) (by decide) (by decide)

/-- C3: rendering a Container into bounds that lie inside the buffer
first fills the bounds - every cell in bounds has its foreground color
overwritten exactly when style.color is present and its background
color overwritten exactly when style.background_color is present (an
absent field leaves the stored color untouched), and its glyph reset to
a single space - and then renders the child into the same bounds over
the filled buffer. -/
theorem C3_container_fill {Msg : Type} (child : ViewNode Msg) (st : Style)
    (k : Option (KeyEvent → Msg)) (s : ScreenBuffer) (b : Bounds)
    (hx : b.origin.fst + b.size.fst ≤ s.width) (hy : b.origin.snd + b.size.snd ≤ s.height)
    (hx16 : b.origin.fst + b.size.fst < 65536) (hy16 : b.origin.snd + b.size.snd < 65536) :
    (fillRect st b s).snd = none ∧
    render (ViewNode.Container child st k) s b = render child ((fillRect st b s).fst) b ∧
    (∀ xx yy : Nat, b.origin.fst ≤ xx → xx < b.origin.fst + b.size.fst →
      b.origin.snd ≤ yy → yy < b.origin.snd + b.size.snd →
      ((fillRect st b s).fst).get? xx yy = (s.get? xx yy).map (fun c =>
        { foreground_color := match st.color with | some fc => fc | none => c.foreground_color
        , background_color :=
            match st.background_color with | some bc => bc | none => c.background_color
        , character := (" ") })) := by
  rcases fillRect_spec st b s hx hy hx16 hy16 with ⟨h1, h2⟩
  refine ⟨h1, ?_, ?_⟩
  · rw [render_Container, renderContainer_Container, rbind_of_none h1]
  · intro xx yy h3 h4 h5 h6
    rw [h2 xx yy, if_pos ⟨h5, h6, h3, h4⟩, fillCharacter_spell st]

/-- C3 witness: a red-foreground container over a None child in the
2 x 2 region at column 1 of a 3 x 2 buffer: the fill succeeds, the
container render equals the child render over the filled buffer, and
the cell at (1, 0) keeps its background (absent override) while taking
the red foreground and a space glyph. -/
theorem C3_witness :
    (fillRect demoC3st demoC3b demoC3s).snd = none ∧
    render (ViewNode.Container (ViewNode.None : ViewNode Nat) demoC3st none) demoC3s demoC3b =
      render (ViewNode.None : ViewNode Nat) ((fillRect demoC3st demoC3b demoC3s).fst) demoC3b ∧
    ((fillRect demoC3st demoC3b demoC3s).fst).get? 1 0 = (demoC3s.get? 1 0).map (fun c =>
      { foreground_color :=
          match demoC3st.color with | some fc => fc | none => c.foreground_color
      , background_color :=
          match demoC3st.background_color with | some bc => bc | none => c.background_color
      , character := (" ") }) := by
  have h := C3_container_fill (ViewNode.None : ViewNode Nat) demoC3st none demoC3s demoC3b
    (by decide) (by decide) (by decide) (by decide)
  exact ⟨h.1, h.2.1, h.2.2 1 0 (by decide) (by decide) (by decide) (by decide)⟩

/-- C4: a Text node whose placement stays inside the buffer writes
grapheme cluster i (user-perceived characters, not code points) as the
glyph of cell (origin.x + i, origin.y), leaves that cell foreground and
background untouched, and leaves every other cell unchanged. -/
theorem C4_text_graphemes {Msg : Type} (t : String) (s : ScreenBuffer) (b : Bounds)
    (hy : b.origin.snd < s.height)
    (hx : b.origin.fst + (graphemes t).length ≤ s.width) :
    (render (ViewNode.Text t : ViewNode Msg) s b).snd = none ∧
    (∀ (i : Nat) (g : String), (graphemes t).get? i = some g →
      ((render (ViewNode.Text t : ViewNode Msg) s b).fst).get? (b.origin.fst + i) b.origin.snd =
        (s.get? (b.origin.fst + i) b.origin.snd).map (fun c => { c with character := g })) ∧
    (∀ xx yy : Nat,
      (yy ≠ b.origin.snd ∨ xx < b.origin.fst ∨ b.origin.fst + (graphemes t).length ≤ xx) →
      ((render (ViewNode.Text t : ViewNode Msg) s b).fst).get? xx yy = s.get? xx yy) := by
  rw [render_Text]
  unfold renderText
  have hspec := renderTextAux_spec b.origin.fst b.origin.snd (graphemes t) 0 s hy (by omega)
  refine ⟨hspec.1, ?_, ?_⟩
  · intro i g hg
    have h := hspec.2.1 i g hg
    have e : b.origin.fst + 0 + i = b.origin.fst + i := by omega
    rw [e] at h
    exact h
  · intro xx yy hcond
    refine hspec.2.2 xx yy ?_
    rcases hcond with h | h | h
    · exact Or.inl h
    · exact Or.inr (Or.inl (by omega))
    · exact Or.inr (Or.inr (by omega))

/-- C4 witness: the composed grapheme e plus U+0301 is one cluster, so
Text of it occupies exactly one cell of a 2 x 1 buffer: cell (0, 0)
takes the whole two-code-point cluster as its glyph with colors
untouched, and cell (1, 0) is unchanged. -/
theorem C4_witness :
    graphemes eAcc = [eAcc] ∧
    (render (ViewNode.Text eAcc : ViewNode Nat) demoE bndE).snd = none ∧
    ((render (ViewNode.Text eAcc : ViewNode Nat) demoE bndE).fst).get?
        (bndE.origin.fst + 0) bndE.origin.snd =
      (demoE.get? (bndE.origin.fst + 0) bndE.origin.snd).map
        (fun c => { c with character := eAcc }) ∧
    ((render (ViewNode.Text eAcc : ViewNode Nat) demoE bndE).fst).get? 1 0 =
      demoE.get? 1 0 := by
  have h := @C4_text_graphemes Nat eAcc demoE bndE (by decide) (by decide)
  exact ⟨by decide, h.1, h.2.1 0 eAcc (by decide), h.2.2 1 0 (by decide)⟩

/-- C5: in every iteration of the running loop, a key event whose code
is the reserved quit character q (any modifiers) terminates the loop
with the model untouched and the rest of the stream unconsumed; any
other key event yields model updated through the registered root
handler when present; a key event without a registered handler and any
non-key event leave the model unchanged. -/
theorem C5_event_dispatch {Model Msg : Type} (update : Msg → Model → Model)
    (viewFn : Model → LibView Msg) (m : Model) (e : KeyEvent) (rest : List Event) :
    (e.code = KeyCode.char 'q' →
      runLoop update viewFn m (Event.key e :: rest) = (m, true)) ∧
    (∀ handler : KeyEvent → Msg, ¬e.code = KeyCode.char 'q' →
      (viewFn m).on_key_press = some handler →
      runLoop update viewFn m (Event.key e :: rest) =
        runLoop update viewFn (update (handler e) m) rest) ∧
    (¬e.code = KeyCode.char 'q' → (viewFn m).on_key_press = none →
      runLoop update viewFn m (Event.key e :: rest) = runLoop update viewFn m rest) ∧
    runLoop update viewFn m (Event.otherEvent :: rest) = runLoop update viewFn m rest := by
  refine ⟨?_, ?_, ?_, ?_⟩
  · intro h
    rw [runLoop_cons, loopStep_quit update viewFn m e h]
  · intro handler hne hsome
    rw [runLoop_cons, loopStep_key_other update viewFn m e hne, hsome]
  · intro hne hnone
    rw [runLoop_cons, loopStep_key_other update viewFn m e hne, hnone]
  · rw [runLoop_cons]
    rfl

/-- C5 witness: with the counter application functions, the quit key
(with modifiers set) ends the loop at model 0; the up key updates the
model to 1 through the handler; the same key with a handler-less view,
and a non-key event, leave the model at 0. -/
theorem C5_witness :
    runLoop demoUpdate demoView 0 [Event.key { code := KeyCode.char 'q', modifiers := 3 }] =
      (0, true) ∧
    runLoop demoUpdate demoView 0 [Event.key { code := KeyCode.up, modifiers := 0 }] =
      (1, false) ∧
    runLoop demoUpdate demoViewNone 0 [Event.key { code := KeyCode.up, modifiers := 0 }] =
      (0, false) ∧
    runLoop demoUpdate demoView 0 [Event.otherEvent] = (0, false) := by
  refine ⟨?_, ?_, ?_, ?_⟩
  · exact (C5_event_dispatch demoUpdate demoView 0
      { code := KeyCode.char 'q', modifiers := 3 } []).1 rfl
  · have h := (C5_event_dispatch demoUpdate demoView 0
      { code := KeyCode.up, modifiers := 0 } []).2.1 (fun _ => 1) (by decide) rfl
    rw [h]
    rfl
  · have h := (C5_event_dispatch demoUpdate demoViewNone 0
      { code := KeyCode.up, modifiers := 0 } []).2.2.1 (by decide) rfl
    rw [h]
    rfl
  · have h := (C5_event_dispatch demoUpdate demoView 0
      { code := KeyCode.up, modifiers := 0 } []).2.2.2
    rw [h]
    rfl

/-- C6 counterexample: render does mutate cells outside the given
bounds: Text of the two clusters a, b rendered into the single-cell
bounds at (0, 0) of a 2 x 1 buffer succeeds and changes cell (1, 0),
which lies outside the bounds columns. -/
theorem C6_cex_text_escapes_bounds :
    (render (ViewNode.Text ("ab") : ViewNode Nat) (ScreenBuffer.new 2 1 Character.default)
        { origin := (0, 0), size := (1, 1) }).snd = none ∧
    (((render (ViewNode.Text ("ab") : ViewNode Nat) (ScreenBuffer.new 2 1 Character.default)
        { origin := (0, 0), size := (1, 1) }).fst).get? 1 0 ==
      (ScreenBuffer.new 2 1 Character.default).get? 1 0) = false := by
  refine ⟨?_, ?_⟩ <;> rw [render_Text] <;> decide

/-- C6 (amended to row confinement): for every node and bounds of height
at least 1, render mutates only cells in the rows spanned by the
bounds - every cell with y < origin.y or y at or past origin.y + height
is unchanged - while column confinement fails (Text writes past the
bounds width and Row children sit at absolute x offsets). -/
theorem C6_render_row_confined {Msg : Type} (v : ViewNode Msg) (s : ScreenBuffer) (b : Bounds)
    (hh : 1 ≤ b.size.snd) (xx yy : Nat)
    (hout : yy < b.origin.snd ∨ b.origin.snd + b.size.snd ≤ yy) :
    ((render v s b).fst).get? xx yy = s.get? xx yy :=
  (render_rows_confined (sizeOf v)).1 v s b (le_refl (sizeOf v)) hh xx yy hout

/-- C6 witness: rendering Text a into the single-cell bounds at (0, 0)
of a 2 x 2 buffer leaves the cell (0, 1), in the row below the bounds,
unchanged. -/
theorem C6_witness :
    ((render (ViewNode.Text ("a") : ViewNode Nat) (ScreenBuffer.new 2 2 Character.default)
        { origin := (0, 0), size := (1, 1) }).fst).get? 0 1 =
      (ScreenBuffer.new 2 2 Character.default).get? 0 1 :=
  C6_render_row_confined (ViewNode.Text ("a")) (ScreenBuffer.new 2 2 Character.default)
    { origin := (0, 0), size := (1, 1) } (by decide) 0 1 (by decide)

/-- C7 counterexample: an out-of-bounds write makes render fail with the
assertion panic of the ScreenBuffer indexing, not with the value the
renderer returns through the Result Err channel: Text ab in a 1 x 1
buffer produces panicOOB, and panicOOB is not the Rust Result error
(only the Unknown ViewNode value is). -/
theorem C7_cex_panic_not_result_error :
    (render (ViewNode.Text ("ab") : ViewNode Nat) (ScreenBuffer.new 1 1 Character.default)
        { origin := (0, 0), size := (1, 1) }).snd = some RErr.panicOOB ∧
    RErr.isRustResultErr RErr.panicOOB = false := by
  refine ⟨?_, rfl⟩
  rw [render_Text]
  decide

/-- C7 (amended): a Text node that attempts to write any cell outside
the buffer makes the whole render call fail fast with the
out-of-bounds assertion panic - nothing is silently swallowed or
clipped - though as a panic rather than as the Result Err value. -/
theorem C7_text_oob_panics {Msg : Type} (t : String) (s : ScreenBuffer) (b : Bounds)
    (hne : ¬graphemes t = [])
    (hoob : s.height ≤ b.origin.snd ∨ s.width < b.origin.fst + (graphemes t).length) :
    (render (ViewNode.Text t : ViewNode Msg) s b).snd = some RErr.panicOOB := by
  rw [render_Text]
  unfold renderText
  exact renderTextAux_oob b.origin.fst b.origin.snd (graphemes t) 0 s hne (by omega)

/-- C7 witness: Text ab in a 1 x 1 buffer overruns the width and render
fails with the out-of-bounds panic. -/
theorem C7_witness :
    (render (ViewNode.Text ("ab") : ViewNode Nat) (ScreenBuffer.new 1 1 Character.default)
        { origin := (0, 0), size := (1, 1) }).snd = some RErr.panicOOB :=
  C7_text_oob_panics ("ab") (ScreenBuffer.new 1 1 Character.default)
    { origin := (0, 0), size := (1, 1) } (by decide) (by decide)

/-- C8: rendering a Row with an empty child list is not a no-op: the
slice width division bounds.size.width / (children count as u16) is
evaluated before the loop, and with 0 children it panics with a
division by zero instead of returning success. -/
theorem C8_empty_row_panics :
    render (ViewNode.Row ([] : List (ViewNode Nat))) (ScreenBuffer.new 4 2 Character.default)
        { origin := (0, 0), size := (4, 2) } =
      (ScreenBuffer.new 4 2 Character.default, some RErr.panicDivZero) := by
  rw [render_Row, renderRow_def]
  rfl

/-- C9 counterexample: the buffer handed to the renderer each frame is
not a clone of the previous frame buffer: with a 1 x 1 terminal whose
previous frame holds the glyph x, the freshly allocated new frame
buffer differs from it. -/
theorem C9_cex_not_a_clone : (newFrameBuffer (1, 1) == [[xCell]]) = false := by decide

/-- C9 (amended): the new frame buffer allocated at the top of every
iteration of Terminal::run is a fresh buffer of default cells,
independent of the previous frame: every in-range cell holds the
default character. -/
theorem C9_fresh_default_buffer (w h x y : Nat) (hy : y < h) (hx : x < w) :
    libGet (newFrameBuffer (w, h)) x y = some Character.default := by
  unfold newFrameBuffer libGet
  rw [List.get?_eq_getElem?, List.getElem?_replicate, if_pos hy]
  show (List.replicate w Character.default).get? x = some Character.default
  rw [List.get?_eq_getElem?, List.getElem?_replicate, if_pos hx]

/-- C9 witness: the cell (1, 1) of the fresh 2 x 2 frame buffer is the
default character. -/
theorem C9_witness : libGet (newFrameBuffer (2, 2)) 1 1 = some Character.default :=
  C9_fresh_default_buffer 2 2 1 1 (by decide) (by decide)

/-- C10: the render dispatch never produces the Unknown ViewNode error:
for every node of the closed ViewNode enumeration, every buffer and
every bounds, the error component of render is never the unknownNode
value, because the catch-all arm of the dispatch only ever receives the
Container variant. -/
theorem C10_no_unknown_node {Msg : Type} (v : ViewNode Msg) (s : ScreenBuffer) (b : Bounds) :
    isUnknownNodeErr ((render v s b).snd) = false :=
  (render_not_unknown_aux (sizeOf v)).1 v s b (le_refl (sizeOf v))

end Claims

end Telminal
